import Mathlib

/-!
Verification development for the pool store (pool/store/sqlite_store.py,
class SqlitePoolStore).

The SQLite database is modelled as a `PoolState`: the `farmer` table as a
list of `FarmerRecord` (the PRIMARY KEY makes launcher ids unique in any
state the program builds), the ledger of valid submissions as a list of
`PartialRow` and the `invalid_partial` ledger as a list of `InvalidRow`.
Hex text columns stay `String`; blob columns are kept verbatim as strings,
since the store writes and reads them unchanged.  `_row_to_farmer_record`
composed with the insert encoding is the identity on these fields, so
reads return the stored record directly.  The SQL expression
`strftime('%s', 'now', '-1 day')` is modelled by an explicit `now : Nat`
query parameter, giving the window predicate `(now : Int) - 86400 < ts`.
-/

structure FarmerRecord where
  launcher_id : String
  p2_singleton_puzzle_hash : String
  delay_time : Int
  delay_puzzle_hash : String
  authentication_public_key : String
  singleton_tip : String
  singleton_tip_state : String
  points : Nat
  difficulty : Nat
  payout_instructions : String
  is_pool_member : Bool
deriving DecidableEq

/-- One row of the valid-submission ledger, in the column order of the
INSERT in add_partial: (launcher_id, timestamp, difficulty, harvester). -/
structure PartialRow where
  launcher_id : String
  timestamp : Nat
  difficulty : Nat
  harvester : String
deriving DecidableEq

/-- One row of the invalid_partial ledger, in the column order of the
INSERT in store_invalid_partial. -/
structure InvalidRow where
  launcher_id : String
  timestamp : Nat
  difficulty : Nat
  harvester : String
  reason : String
deriving DecidableEq

structure PoolState where
  farmers : List FarmerRecord
  partials : List PartialRow
  invalid_partials : List InvalidRow
deriving DecidableEq

/-- The 24-hour window test `strftime('%s','now','-1 day') < timestamp`
used by the aggregation queries (strict comparison, in seconds). -/
def inWindow (now ts : Nat) : Bool := decide ((now : Int) - 86400 < (ts : Int))

/-- Value of one hex digit, as recognised by Python's bytes.fromhex. -/
def hexDigitVal (c : Char) : Option Nat :=
  if '0' ≤ c ∧ c ≤ '9' then some (c.toNat - '0'.toNat)
  else if 'a' ≤ c ∧ c ≤ 'f' then some (c.toNat - 'a'.toNat + 10)
  else if 'A' ≤ c ∧ c ≤ 'F' then some (c.toNat - 'A'.toNat + 10)
  else none

/-- Python bytes.fromhex on a character list: consumes pairs of hex digits;
a stray final digit or any non-hex character raises, modelled as none. -/
def bytesFromHexList : List Char → Option (List Nat)
  | [] => some []
  | [_] => none
  | a :: b :: rest =>
    match hexDigitVal a, hexDigitVal b, bytesFromHexList rest with
    | some hi, some lo, some bs => some ((16 * hi + lo) :: bs)
    | _, _, _ => none

/-- Python bytes.fromhex on a string. -/
def bytesFromHex (s : String) : Option (List Nat) := bytesFromHexList s.toList

/-- bytes32(bytes.fromhex s): additionally requires exactly 32 bytes. -/
def bytes32FromHex (s : String) : Option (List Nat) :=
  match bytesFromHex s with
  | some bs => if bs.length = 32 then some bs else none
  | none => none

/-- get_farmer_record: SELECT * from farmer where launcher_id=?, fetchone. -/
def get_farmer_record (st : PoolState) (launcher_id : String) : Option FarmerRecord :=
  st.farmers.find? (fun f => f.launcher_id == launcher_id)

/-- The UPDATE branch of add_farmer_record: overwrite exactly the eight
columns listed in its SET clause, keeping the rest of the row. -/
def updateMutable (r f : FarmerRecord) : FarmerRecord :=
  { f with
    p2_singleton_puzzle_hash := r.p2_singleton_puzzle_hash
    delay_time := r.delay_time
    delay_puzzle_hash := r.delay_puzzle_hash
    authentication_public_key := r.authentication_public_key
    singleton_tip := r.singleton_tip
    singleton_tip_state := r.singleton_tip_state
    payout_instructions := r.payout_instructions
    is_pool_member := r.is_pool_member }

/-- add_farmer_record: SELECT by launcher_id; INSERT the full row when
absent, otherwise UPDATE the mutable column subset of the matching rows. -/
def add_farmer_record (st : PoolState) (r : FarmerRecord) : PoolState :=
  match st.farmers.find? (fun f => f.launcher_id == r.launcher_id) with
  | none => { st with farmers := st.farmers ++ [r] }
  | some _ =>
    { st with
      farmers := st.farmers.map (fun f =>
        if f.launcher_id == r.launcher_id then updateMutable r f else f) }

/-- add_partial: INSERT the ledger row, then
UPDATE farmer SET points=points+? WHERE launcher_id=?. -/
def add_partial (st : PoolState) (launcher_id : String) (timestamp : Nat)
    (difficulty : Nat) (harvester : String) : PoolState :=
  { st with
    partials := st.partials ++ [⟨launcher_id, timestamp, difficulty, harvester⟩]
    farmers := st.farmers.map (fun f =>
      if f.launcher_id == launcher_id then { f with points := f.points + difficulty } else f) }

/-- store_invalid_partial: INSERT into invalid_partial only. -/
def store_invalid_partial (st : PoolState) (launcher_id : String) (timestamp : Nat)
    (difficulty : Nat) (harvester : String) (reason : String) : PoolState :=
  { st with
    invalid_partials := st.invalid_partials ++ [⟨launcher_id, timestamp, difficulty, harvester, reason⟩] }

/-- clear_farmer_points: UPDATE farmer set points=0 (no WHERE clause). -/
def clear_farmer_points (st : PoolState) : PoolState :=
  { st with farmers := st.farmers.map (fun f => { f with points := 0 }) }

/-- get_farmer_records_for_p2_singleton_phs.  The second component counts
the SELECT statements issued: the empty input returns before querying. -/
def get_farmer_records_for_p2_singleton_phs (st : PoolState)
    (puzzle_hashes : List String) : List FarmerRecord × Nat :=
  if puzzle_hashes.length = 0 then ([], 0)
  else (st.farmers.filter (fun f => puzzle_hashes.contains f.p2_singleton_puzzle_hash), 1)

/-- SQL MIN over a group of timestamps; NULL (none) on the empty group. -/
def minTs : List Nat → Option Nat
  | [] => none
  | t :: ts => some (ts.foldl min t)

/-- WHERE farmer.is_pool_member=1 ... HAVING points>0 of the payout query. -/
def eligibleFarmers (st : PoolState) : List FarmerRecord :=
  st.farmers.filter (fun f => f.is_pool_member && decide (0 < f.points))

/-- The ledger rows joined to one farmer by LEFT OUTER JOIN partial
USING(launcher_id). -/
def farmerRows (st : PoolState) (launcher_id : String) : List PartialRow :=
  st.partials.filter (fun r => r.launcher_id == launcher_id)

/-- COALESCE(SUM(case when strftime('%s','now','-1 day')<timestamp then
partial.difficulty else 0 end), 0) for one farmer's group. -/
def points24 (st : PoolState) (now : Nat) (launcher_id : String) : Nat :=
  ((farmerRows st launcher_id).map
    (fun r => if inWindow now r.timestamp then r.difficulty else 0)).sum

/-- MIN(timestamp) as joinDate for one farmer's group; NULL when the
farmer has no ledger rows (the LEFT JOIN contributes a NULL row). -/
def joinOf (st : PoolState) (launcher_id : String) : Option Nat :=
  minTs ((farmerRows st launcher_id).map (fun r => r.timestamp))

/-- Result rows of the SELECT in get_farmer_points_and_payout_instructions,
one per eligible farmer, in column order
(points, payout_instructions, joinDate, points24). -/
def sqlPayoutRows (st : PoolState) (now : Nat) : List (Nat × String × Option Nat × Nat) :=
  (eligibleFarmers st).map (fun f =>
    (f.points, f.payout_instructions, joinOf st f.launcher_id, points24 st now f.launcher_id))

/-- Per-row conversions of the Python loop body: points := uint64(row[3]),
joined := uint64(row[2]) (raises on the NULL joinDate of a farmer with no
ledger rows), ph := bytes32(bytes.fromhex(row[1])).  Note the loop reads
row[3] (the windowed points24 sum), not row[0] (the points accumulator). -/
def convRow (row : Nat × String × Option Nat × Nat) : Option (Nat × List Nat × Nat) :=
  match row.2.2.1, bytes32FromHex row.2.1 with
  | some jd, some ph => some (row.2.2.2, ph, jd)
  | _, _ => none

/-- One step of the accumulated-dict update: if ph is already a key, add
the points and take the minimum join date, else insert a fresh entry.
Entries are (ph, points, joined) in insertion order. -/
def accStep (acc : List (List Nat × Nat × Nat)) (c : Nat × List Nat × Nat) :
    List (List Nat × Nat × Nat) :=
  if acc.any (fun e => e.1 == c.2.1) then
    acc.map (fun e => if e.1 == c.2.1 then (e.1, e.2.1 + c.1, min c.2.2 e.2.2) else e)
  else acc ++ [(c.2.1, c.1, c.2.2)]

/-- The Python for-loop over the fetched rows: convert each row (any
conversion failure aborts the call) and fold it into the dict. -/
def accumulateRows : List (Nat × String × Option Nat × Nat) →
    List (List Nat × Nat × Nat) → Option (List (List Nat × Nat × Nat))
  | [], acc => some acc
  | row :: rest, acc =>
    match convRow row with
    | some c => accumulateRows rest (accStep acc c)
    | none => none

/-- get_farmer_points_and_payout_instructions: run the query, accumulate
per payout destination, return (total_points, ph, joined) tuples; none
models the uncaught exception paths of the loop body. -/
def get_farmer_points_and_payout_instructions (st : PoolState) (now : Nat) :
    Option (List (Nat × List Nat × Nat)) :=
  (accumulateRows (sqlPayoutRows st now) []).map
    (fun acc => acc.map (fun e => (e.2.1, e.1, e.2.2)))

/-- The eligible farmers whose payout_instructions decode to a given
32-byte destination: the farmers merged into one payout entry. -/
def destFarmers (st : PoolState) (ph : List Nat) : List FarmerRecord :=
  (eligibleFarmers st).filter (fun f => bytes32FromHex f.payout_instructions == some ph)

/-- Join dates (MIN partial timestamp) of the farmers merged into one
payout destination, skipping farmers whose group has no ledger row. -/
def destJoins (st : PoolState) (ph : List Nat) : List Nat :=
  (destFarmers st ph).filterMap (fun f => joinOf st f.launcher_id)

/-- A row of the UNION subquery of get_farmer_record_for_all_farmers, in
its column order (launcher_id, harvester, difficulty, timestamp, source). -/
structure TaggedRow where
  launcher_id : String
  harvester : String
  difficulty : Nat
  timestamp : Nat
  source : Char
deriving DecidableEq

def tagValid (r : PartialRow) : TaggedRow :=
  ⟨r.launcher_id, r.harvester, r.difficulty, r.timestamp, 'p'⟩

def tagInvalid (r : InvalidRow) : TaggedRow :=
  ⟨r.launcher_id, r.harvester, r.difficulty, r.timestamp, 'i'⟩

/-- The UNION (set union, so duplicate projected rows collapse) of the two
ledgers as selected by get_farmer_record_for_all_farmers. -/
def unionLedger (st : PoolState) : List TaggedRow :=
  (st.partials.map tagValid ++ st.invalid_partials.map tagInvalid).dedup

/-- The union rows joined to one farmer (JOIN ... USING(launcher_id)). -/
def groupRows (st : PoolState) (launcher_id : String) : List TaggedRow :=
  (unionLedger st).filter (fun r => r.launcher_id == launcher_id)

/-- One dictionary of the list returned by get_farmer_record_for_all_farmers.
payout_address keeps the decoded puzzle-hash bytes; the bech32m rendering
done by encode_puzzle_hash is an injective display step outside this core
(the spec excludes address encoding), so the bytes stand for the address. -/
structure FarmerSummary where
  difficulty : Nat
  points : Nat
  launcher_id : String
  partials24 : Nat
  points24 : Nat
  payout_address : List Nat
  joinDate : Nat
  puzzle_hash : String
  harvesters : Nat
  invalid_partials24 : Nat
deriving DecidableEq

/-- One output row of the summary query for farmer f, following its SELECT
list: the SUM(case ...) aggregates become sums of indicator values over the
farmer's union-ledger group; bytes.fromhex of payout_instructions raises on
invalid hex (none); MIN(timestamp) is never NULL here since the inner join
only produces groups with at least one row. -/
def mkSummary (st : PoolState) (now : Nat) (f : FarmerRecord) : Option FarmerSummary :=
  match bytesFromHex f.payout_instructions,
        minTs ((groupRows st f.launcher_id).map (fun r => r.timestamp)) with
  | some addr, some jd =>
    some {
      difficulty := f.difficulty
      points := f.points
      launcher_id := f.launcher_id
      partials24 := ((groupRows st f.launcher_id).map
        (fun r => if inWindow now r.timestamp && r.source == 'p' then 1 else 0)).sum
      points24 := ((groupRows st f.launcher_id).map
        (fun r => if inWindow now r.timestamp && r.source == 'p' then r.difficulty else 0)).sum
      payout_address := addr
      joinDate := jd
      puzzle_hash := f.p2_singleton_puzzle_hash
      harvesters := ((groupRows st f.launcher_id).map (fun r => r.harvester)).dedup.length
      invalid_partials24 := ((groupRows st f.launcher_id).map
        (fun r => if inWindow now r.timestamp && r.source == 'i' then 1 else 0)).sum
    }
  | _, _ => none

/-- The farmers that produce a group in the summary query: pool members
with at least one row in the union of the two ledgers (the JOIN is an
inner join, so members without ledger rows produce no group). -/
def summaryFarmers (st : PoolState) : List FarmerRecord :=
  (st.farmers.filter (fun f => f.is_pool_member)).filter
    (fun f => !(groupRows st f.launcher_id).isEmpty)

/-- The list comprehension over the fetched rows; a failing address decode
in any row aborts the whole call. -/
def summaries (st : PoolState) (now : Nat) : List FarmerRecord → Option (List FarmerSummary)
  | [] => some []
  | f :: fs =>
    match mkSummary st now f, summaries st now fs with
    | some e, some es => some (e :: es)
    | _, _ => none

/-- get_farmer_record_for_all_farmers. -/
def get_farmer_record_for_all_farmers (st : PoolState) (now : Nat) :
    Option (List FarmerSummary) :=
  summaries st now (summaryFarmers st)

/-- Rows of one farmer in the last-24h window, as selected by
get_points_by_date's WHERE clause. -/
def windowRows (st : PoolState) (now : Nat) (launcher_id : String) : List PartialRow :=
  st.partials.filter (fun r => r.launcher_id == launcher_id && inWindow now r.timestamp)

/-- get_points_by_date: GROUP BY the calendar minute of the timestamp
(strftime('%Y.%m.%d.%H.%M') of a unix timestamp is determined by, and
determines, timestamp / 60), SUM(difficulty) per bucket, LIMIT count*60.
The HH:MM label is a display rendering of the minute key; GROUP BY output
order is unspecified, so the distinct keys are enumerated in an arbitrary
fixed order. -/
def get_points_by_date (st : PoolState) (now : Nat) (launcher_id : String)
    (count : Nat) : List (Nat × Nat) :=
  (((windowRows st now launcher_id).map (fun r => r.timestamp / 60)).dedup.map
    (fun k => (k, (((windowRows st now launcher_id).filter
      (fun r => r.timestamp / 60 == k)).map (fun r => r.difficulty)).sum))).take (count * 60)

/-- The tables created by connect() on a fresh database, with their column
lists read off the CREATE TABLE statements: farmer has eleven columns, the
ledger table has only (launcher_id, timestamp, difficulty), and no
invalid_partial table is created at all. -/
def connectTables : List (String × List String) :=
  [("farmer",
    ["launcher_id", "p2_singleton_puzzle_hash", "delay_time", "delay_puzzle_hash",
     "authentication_public_key", "singleton_tip", "singleton_tip_state", "points",
     "difficulty", "payout_instructions", "is_pool_member"]),
   ("partial", ["launcher_id", "timestamp", "difficulty"])]

def tableColumns (tables : List (String × List String)) (t : String) : Option (List String) :=
  (tables.find? (fun e => e.1 == t)).map (fun e => e.2)

/-- An INSERT INTO t VALUES(...) without a column list succeeds iff the
table exists and the number of supplied values equals its column count. -/
def insertOk (tables : List (String × List String)) (t : String) (values : Nat) : Bool :=
  match tableColumns tables t with
  | some cols => cols.length == values
  | none => false

/-- A sequence of add_partial calls for one launcher id; each element is
(timestamp, difficulty, harvester). -/
def applyPartials (launcher_id : String) : PoolState → List (Nat × Nat × String) → PoolState
  | st, [] => st
  | st, c :: cs => applyPartials launcher_id ( add_partial st launcher_id c.1 c.2.1 c.2.2) cs

/-- Projection of every farmer column other than points. -/
def nonPointsFields (f : FarmerRecord) :
    String × String × Int × String × String × String × String × Nat × String × Bool :=
  (f.launcher_id, f.p2_singleton_puzzle_hash, f.delay_time, f.delay_puzzle_hash,
   f.authentication_public_key, f.singleton_tip, f.singleton_tip_state,
   f.difficulty, f.payout_instructions, f.is_pool_member)

/-- A member farmer with positive points and no ledger rows, as inserted
by add_farmer_record on an empty store. -/
def farmerNoRows : FarmerRecord :=
  ⟨"a", "pa", 0, "dp", "apk", "tip", "tips", 5, 1, "00", true⟩

def farmerC6old : FarmerRecord :=
  ⟨"a", "pa", 0, "dp", "apk", "tip", "tips", 40, 7, "00", true⟩

def farmerC6new : FarmerRecord :=
  ⟨"a", "pb", 1, "dq", "apk2", "tip2", "tips2", 999, 888, "11", false⟩

def stC9 : PoolState := ⟨[], [⟨"a", 999970, 3, "h"⟩, ⟨"a", 999900, 5, "h"⟩], []⟩

/-- Aggregate of the accumulated-dict entry for key ph after folding a
run of converted rows: combined points total and minimum join date. -/
def payoutAgg (ph : List Nat) (e? : Option (List Nat × Nat × Nat))
    (rs : List (Nat × List Nat × Nat)) : Option (List Nat × Nat × Nat) :=
  match e?, rs with
  | some e, rs => some (e.1, e.2.1 + (rs.map (fun r => r.1)).sum,
      (rs.map (fun r => r.2.2)).foldl (fun a x => min x a) e.2.2)
  | none, [] => none
  | none, r :: rs => some (ph, r.1 + (rs.map (fun r => r.1)).sum,
      (rs.map (fun r => r.2.2)).foldl (fun a x => min x a) r.2.2)

/-- Row conversion of the whole fetched list at once; the loop of
get_farmer_points_and_payout_instructions is this conversion followed by
the dict fold (accumulateRows_eq). -/
def convAll : List (Nat × String × Option Nat × Nat) → Option (List (Nat × List Nat × Nat))
  | [] => some []
  | row :: rest =>
    match convRow row, convAll rest with
    | some c, some cs => some (c :: cs)
    | _, _ => none

/-- A 64-hex-digit payout destination shared by two farmers. -/
def instrZeros : String :=
  "0000000000000000000000000000000000000000000000000000000000000000"

def phZeros : List Nat := List.replicate 32 0

def farmerPayA : FarmerRecord :=
  ⟨"a", "pa", 0, "dp", "apk", "tip", "tips", 40, 1, instrZeros, true⟩

def farmerPayB : FarmerRecord :=
  ⟨"b", "pb", 0, "dp", "apk", "tip", "tips", 25, 1, instrZeros, true⟩

/-- Two pool members with points 40 and 25 sharing one payout destination,
whose only partials are older than 24 hours. -/
def stPayOld : PoolState :=
  ⟨[farmerPayA, farmerPayB], [⟨"a", 100, 40, "h"⟩, ⟨"b", 200, 25, "h"⟩], []⟩

/-- The same two farmers with their partials inside the 24h window. -/
def stPayNew : PoolState :=
  ⟨[farmerPayA, farmerPayB], [⟨"a", 999000, 40, "h"⟩, ⟨"b", 999500, 25, "h"⟩], []⟩

/-- All ledger timestamps of one farmer, valid and invalid submissions. -/
def ledgerTimestamps (st : PoolState) (launcher_id : String) : List Nat :=
  (st.partials.filter (fun r => r.launcher_id == launcher_id)).map (fun r => r.timestamp) ++
  (st.invalid_partials.filter (fun r => r.launcher_id == launcher_id)).map (fun r => r.timestamp)

/-- A pool member with no ledger rows at all. -/
def farmerC4 : FarmerRecord :=
  ⟨"a", "pa", 0, "dp", "apk", "tip", "tips", 0, 1, instrZeros, true⟩

def stC4 : PoolState := ⟨[farmerC4], [], []⟩

/-- One member farmer, one valid partial in the window at 999000 and one
invalid partial at 998000, observed at epoch second 1000000. -/
def stC4w : PoolState :=
  ⟨[farmerPayA], [⟨"a", 999000, 40, "h"⟩], [⟨"a", 998000, 9, "h2", "late"⟩]⟩

/-! ### Helper lemmas -/

/-- find? commutes with a map that does not change the predicate. -/
theorem find?_map_pred {α : Type} (l : List α) (g : α → α) (p : α → Bool)
    (hp : ∀ x, p (g x) = p x) : (l.map g).find? p = (l.find? p).map g := by
  induction l with
  | nil => rfl
  | cons a t ih =>
    by_cases h : p a = true
    · simp [List.find?_cons_of_pos, h, hp]
    · have h' : p a = false := by simpa using h
      simp [List.find?_cons_of_neg, h', hp, ih]

theorem updateMutable_launcher (r f : FarmerRecord) :
    (updateMutable r f).launcher_id = f.launcher_id := rfl

theorem get_add_farmer_existing (st : PoolState) (F f : FarmerRecord)
    (h : get_farmer_record st F.launcher_id = some f) :
    get_farmer_record (add_farmer_record st F) F.launcher_id = some (updateMutable F f) := by
  have h' : st.farmers.find? (fun x => x.launcher_id == F.launcher_id) = some f := h
  have hbeq := List.find?_some h'
  simp only [beq_iff_eq] at hbeq
  unfold add_farmer_record
  rw [h']
  unfold get_farmer_record
  rw [find?_map_pred _ _ _ (fun x => by
    by_cases hx : (x.launcher_id == F.launcher_id) = true <;>
      simp [hx, updateMutable_launcher])]
  rw [h', Option.map_some']
  simp [hbeq]

theorem get_add_farmer_frame (st : PoolState) (F : FarmerRecord) (lid : String)
    (hne : lid ≠ F.launcher_id) :
    get_farmer_record (add_farmer_record st F) lid = get_farmer_record st lid := by
  have hF : (F.launcher_id == lid) = false := by
    simp [beq_eq_false_iff_ne]
    exact fun h => hne h.symm
  unfold add_farmer_record
  cases hfind : st.farmers.find? (fun x => x.launcher_id == F.launcher_id) with
  | none =>
    unfold get_farmer_record
    simp only [List.find?_append]
    have hsingle : List.find? (fun f => f.launcher_id == lid) [F] = none := by
      simp [List.find?, hF]
    simp [hsingle]
  | some f0 =>
    unfold get_farmer_record
    rw [find?_map_pred _ _ _ (fun x => by
      by_cases hx : (x.launcher_id == F.launcher_id) = true <;>
        simp [hx, updateMutable_launcher])]
    cases hf : st.farmers.find? (fun x => x.launcher_id == lid) with
    | none => rfl
    | some fx =>
      have hx : fx.launcher_id = lid := by simpa using List.find?_some hf
      have hne' : fx.launcher_id ≠ F.launcher_id := by
        rw [hx]
        exact hne
      simp [hne']

/-! ### C2: schema created by connect versus the ledger INSERTs -/

/-- C2.  On a fresh database, connect() creates the ledger table with only
(launcher_id, timestamp, difficulty) and creates no invalid_partial table,
so the four-value INSERT of add_partial and the five-value INSERT of
store_invalid_partial are both rejected, while the farmer INSERT matches
its eleven columns.  The claim that both recording calls succeed against
this layout fails; the rest of the code expects the wider tables, so the
CREATE statements are the slip. -/
theorem connect_schema_rejects_ledger_inserts :
    insertOk connectTables "partial" 4 = false ∧
    insertOk connectTables "invalid_partial" 5 = false ∧
    tableColumns connectTables "invalid_partial" = none ∧
    insertOk connectTables "farmer" 11 = true := by decide

/-! ### C7: clear_farmer_points -/

/-- C7.  After clear_farmer_points every farmer's points is 0, every other
farmer column is unchanged, and neither ledger is touched. -/
theorem clear_farmer_points_spec (st : PoolState) :
    ((clear_farmer_points st).farmers.all (fun f => f.points == 0)) = true ∧
    (clear_farmer_points st).farmers.map nonPointsFields = st.farmers.map nonPointsFields ∧
    (clear_farmer_points st).partials = st.partials ∧
    (clear_farmer_points st).invalid_partials = st.invalid_partials := by
  refine ⟨?_, ?_, rfl, rfl⟩
  · simp [clear_farmer_points, List.all_eq_true]
  · show (st.farmers.map (fun f => { f with points := 0 })).map nonPointsFields = _
    rw [List.map_map]
    rfl

/-! ### C8: get_farmer_records_for_p2_singleton_phs -/

/-- C8.  The empty input set returns the empty list with no query issued;
a non-empty set issues one query and returns exactly the records whose
p2_singleton_puzzle_hash belongs to the set. -/
theorem get_farmers_by_phs_spec (st : PoolState) (phs : List String) :
    get_farmer_records_for_p2_singleton_phs st [] = ([], 0) ∧
    (phs ≠ [] →
      (get_farmer_records_for_p2_singleton_phs st phs).2 = 1 ∧
      ∀ f, f ∈ (get_farmer_records_for_p2_singleton_phs st phs).1 ↔
        f ∈ st.farmers ∧ f.p2_singleton_puzzle_hash ∈ phs) := by
  refine ⟨rfl, fun hne => ?_⟩
  have hlen : ¬ phs.length = 0 := by simpa using hne
  constructor
  · simp [get_farmer_records_for_p2_singleton_phs, hlen]
  · intro f
    simp [get_farmer_records_for_p2_singleton_phs, hlen, List.mem_filter]

theorem get_farmers_by_phs_spec_witness :
    (["pa", "x"] : List String) ≠ [] ∧
    (∀ f, f ∈ (get_farmer_records_for_p2_singleton_phs
        ⟨[⟨"a", "pa", 0, "dp", "apk", "tip", "tips", 40, 1, "00", true⟩], [], []⟩
        ["pa", "x"]).1 ↔
      f ∈ [(⟨"a", "pa", 0, "dp", "apk", "tip", "tips", 40, 1, "00", true⟩ : FarmerRecord)] ∧
        f.p2_singleton_puzzle_hash ∈ ["pa", "x"]) :=
  ⟨by decide,
   (get_farmers_by_phs_spec
     ⟨[⟨"a", "pa", 0, "dp", "apk", "tip", "tips", 40, 1, "00", true⟩], [], []⟩
     ["pa", "x"]).2 (by decide) |>.2⟩

/-! ### C10: the payout query is not total -/

/-- C10.  Inserting a pool member with points > 0 and never recording a
ledger row for it is reachable, and on that state the payout aggregation
returns no result list: the LEFT OUTER JOIN gives the farmer a NULL
MIN(timestamp) and uint64(None) raises. -/
theorem payout_crashes_without_partials :
    (add_farmer_record ⟨[], [], []⟩ farmerNoRows).farmers = [farmerNoRows] ∧
    farmerNoRows.is_pool_member = true ∧
    0 < farmerNoRows.points ∧
    get_farmer_points_and_payout_instructions
      (add_farmer_record ⟨[], [], []⟩ farmerNoRows) 1000000 = none := by decide

/-! ### C5 / C6: upsert semantics -/

theorem poolState_eq (a b : PoolState) (h1 : a.farmers = b.farmers)
    (h2 : a.partials = b.partials) (h3 : a.invalid_partials = b.invalid_partials) : a = b := by
  cases a; cases b
  cases h1; cases h2; cases h3
  rfl

theorem add_farmer_partials (st : PoolState) (F : FarmerRecord) :
    (add_farmer_record st F).partials = st.partials := by
  unfold add_farmer_record
  cases st.farmers.find? (fun x => x.launcher_id == F.launcher_id) <;> rfl

theorem add_farmer_invalid (st : PoolState) (F : FarmerRecord) :
    (add_farmer_record st F).invalid_partials = st.invalid_partials := by
  unfold add_farmer_record
  cases st.farmers.find? (fun x => x.launcher_id == F.launcher_id) <;> rfl

theorem add_farmer_farmers_none (st : PoolState) (F : FarmerRecord)
    (h : st.farmers.find? (fun x => x.launcher_id == F.launcher_id) = none) :
    (add_farmer_record st F).farmers = st.farmers ++ [F] := by
  unfold add_farmer_record
  rw [h]

theorem add_farmer_farmers_some (st : PoolState) (F f : FarmerRecord)
    (h : st.farmers.find? (fun x => x.launcher_id == F.launcher_id) = some f) :
    (add_farmer_record st F).farmers = st.farmers.map (fun x =>
      if x.launcher_id == F.launcher_id then updateMutable F x else x) := by
  unfold add_farmer_record
  rw [h]

theorem updateMutable_idem (F x : FarmerRecord) :
    updateMutable F (updateMutable F x) = updateMutable F x := rfl

theorem updateMutable_self (F : FarmerRecord) : updateMutable F F = F := rfl

/-- C5.  Upsert followed by lookup returns the upserted data: on the
insert path the full record, on the update path the old row with the
mutable columns overwritten (each mutable field then equals F's); and
upserting the identical record twice leaves the same state as once. -/
theorem upsert_get_roundtrip_idempotent (st : PoolState) (F : FarmerRecord) :
    add_farmer_record (add_farmer_record st F) F = add_farmer_record st F ∧
    (get_farmer_record st F.launcher_id = none →
      get_farmer_record (add_farmer_record st F) F.launcher_id = some F) ∧
    (∀ f, get_farmer_record st F.launcher_id = some f →
      get_farmer_record (add_farmer_record st F) F.launcher_id = some (updateMutable F f) ∧
      (updateMutable F f).p2_singleton_puzzle_hash = F.p2_singleton_puzzle_hash ∧
      (updateMutable F f).delay_time = F.delay_time ∧
      (updateMutable F f).delay_puzzle_hash = F.delay_puzzle_hash ∧
      (updateMutable F f).authentication_public_key = F.authentication_public_key ∧
      (updateMutable F f).singleton_tip = F.singleton_tip ∧
      (updateMutable F f).singleton_tip_state = F.singleton_tip_state ∧
      (updateMutable F f).payout_instructions = F.payout_instructions ∧
      (updateMutable F f).is_pool_member = F.is_pool_member) := by
  refine ⟨?_, ?_, ?_⟩
  · -- idempotence
    apply poolState_eq
    · cases hfind : st.farmers.find? (fun x => x.launcher_id == F.launcher_id) with
      | none =>
        have hall := List.find?_eq_none.mp hfind
        have h1 : (add_farmer_record st F).farmers = st.farmers ++ [F] :=
          add_farmer_farmers_none st F hfind
        have hfind2 : (add_farmer_record st F).farmers.find?
            (fun x => x.launcher_id == F.launcher_id) = some F := by
          rw [h1, List.find?_append, hfind]
          simp [List.find?]
        rw [add_farmer_farmers_some _ F F hfind2, h1]
        rw [List.map_append]
        have hl : st.farmers.map (fun x =>
            if x.launcher_id == F.launcher_id then updateMutable F x else x) = st.farmers := by
          rw [List.map_congr_left (g := id) (fun a ha => by
            have : ¬ (a.launcher_id == F.launcher_id) = true := hall a ha
            simp [this])]
          exact List.map_id _
        rw [hl]
        simp [updateMutable_self]
      | some f =>
        have h1 := add_farmer_farmers_some st F f hfind
        have hfind2 : (add_farmer_record st F).farmers.find?
            (fun x => x.launcher_id == F.launcher_id) = some (if f.launcher_id == F.launcher_id then updateMutable F f else f) := by
          rw [h1, find?_map_pred _ _ _ (fun x => by
            by_cases hx : (x.launcher_id == F.launcher_id) = true <;>
              simp [hx, updateMutable_launcher]), hfind]
          rfl
        rw [add_farmer_farmers_some _ F _ hfind2, h1, List.map_map]
        apply List.map_congr_left
        intro a _
        by_cases hx : (a.launcher_id == F.launcher_id) = true
        · simp [Function.comp, hx, updateMutable_launcher, updateMutable_idem]
        · simp [Function.comp, hx]
    · rw [add_farmer_partials, add_farmer_partials]
    · rw [add_farmer_invalid, add_farmer_invalid]
  · -- insert path lookup
    intro h
    have h' : st.farmers.find? (fun x => x.launcher_id == F.launcher_id) = none := h
    show (add_farmer_record st F).farmers.find? (fun x => x.launcher_id == F.launcher_id) = some F
    rw [add_farmer_farmers_none st F h', List.find?_append, h']
    simp [List.find?]
  · -- update path lookup
    intro f h
    exact ⟨get_add_farmer_existing st F f h, rfl, rfl, rfl, rfl, rfl, rfl, rfl, rfl⟩

theorem upsert_get_roundtrip_idempotent_witness :
    get_farmer_record
      (add_farmer_record ⟨[], [], []⟩ farmerNoRows) farmerNoRows.launcher_id =
      some farmerNoRows :=
  (upsert_get_roundtrip_idempotent ⟨[], [], []⟩ farmerNoRows).2.1 (by decide)

/-- C6.  When the launcher id already has a row, add_farmer_record
overwrites exactly the eight mutable columns with the argument's values
and keeps the stored points and difficulty, whatever the argument record
carries for them; every other farmer's row is untouched. -/
theorem upsert_existing_preserves_points_difficulty (st : PoolState) (F f : FarmerRecord)
    (h : get_farmer_record st F.launcher_id = some f) :
    get_farmer_record (add_farmer_record st F) F.launcher_id = some (updateMutable F f) ∧
    (updateMutable F f).points = f.points ∧
    (updateMutable F f).difficulty = f.difficulty ∧
    ∀ lid, lid ≠ F.launcher_id →
      get_farmer_record (add_farmer_record st F) lid = get_farmer_record st lid :=
  ⟨get_add_farmer_existing st F f h, rfl, rfl,
   fun lid hne => get_add_farmer_frame st F lid hne⟩

theorem upsert_existing_preserves_points_difficulty_witness :
    get_farmer_record (add_farmer_record ⟨[farmerC6old], [], []⟩ farmerC6new)
        farmerC6new.launcher_id = some (updateMutable farmerC6new farmerC6old) ∧
    (updateMutable farmerC6new farmerC6old).points = 40 ∧
    (updateMutable farmerC6new farmerC6old).difficulty = 7 :=
  ⟨(upsert_existing_preserves_points_difficulty ⟨[farmerC6old], [], []⟩
      farmerC6new farmerC6old (by decide)).1,
   rfl, rfl⟩

/-! ### C3: add_partial accumulates points -/

theorem get_add_partial_same (st : PoolState) (lid : String) (ts d : Nat) (hv : String) :
    get_farmer_record ( add_partial st lid ts d hv) lid =
      (get_farmer_record st lid).map (fun f => { f with points := f.points + d }) := by
  unfold get_farmer_record
  show (st.farmers.map (fun f =>
      if f.launcher_id == lid then { f with points := f.points + d } else f)).find?
      (fun f => f.launcher_id == lid) = _
  rw [find?_map_pred _ _ _ (fun x => by
    by_cases hx : (x.launcher_id == lid) = true <;> simp [hx])]
  cases hf : st.farmers.find? (fun f => f.launcher_id == lid) with
  | none => rfl
  | some fx =>
    have hx := List.find?_some hf
    have hx' : fx.launcher_id = lid := by simpa using hx
    show some (if (fx.launcher_id == lid) = true then _ else _) = some _
    rw [if_pos (by simp [hx'] : (fx.launcher_id == lid) = true)]

theorem get_add_partial_other (st : PoolState) (lid : String) (ts d : Nat) (hv : String)
    (lid' : String) (hne : lid' ≠ lid) :
    get_farmer_record ( add_partial st lid ts d hv) lid' = get_farmer_record st lid' := by
  unfold get_farmer_record
  show (st.farmers.map (fun f =>
      if f.launcher_id == lid then { f with points := f.points + d } else f)).find?
      (fun f => f.launcher_id == lid') = _
  rw [find?_map_pred _ _ _ (fun x => by
    by_cases hx : (x.launcher_id == lid) = true <;> simp [hx])]
  cases hf : st.farmers.find? (fun f => f.launcher_id == lid') with
  | none => rfl
  | some fx =>
    have hx : fx.launcher_id = lid' := by simpa using List.find?_some hf
    have hne' : fx.launcher_id ≠ lid := by
      rw [hx]
      exact hne
    simp [hne']

/-- C3.  A sequence of add_partial calls for one farmer appends exactly
one ledger row per call (in order), leaves the invalid ledger alone,
adds the sum of the difficulties to that farmer's points accumulator and
leaves every other farmer's row unchanged. -/
theorem add_partial_points_accumulate (st : PoolState) (lid : String)
    (calls : List (Nat × Nat × String)) (f : FarmerRecord)
    (h : get_farmer_record st lid = some f) :
    get_farmer_record (applyPartials lid st calls) lid =
      some { f with points := f.points + (calls.map (fun c => c.2.1)).sum } ∧
    (applyPartials lid st calls).partials =
      st.partials ++ calls.map (fun c => (⟨lid, c.1, c.2.1, c.2.2⟩ : PartialRow)) ∧
    (applyPartials lid st calls).invalid_partials = st.invalid_partials ∧
    ∀ lid', lid' ≠ lid →
      get_farmer_record (applyPartials lid st calls) lid' = get_farmer_record st lid' := by
  induction calls generalizing st f with
  | nil =>
    refine ⟨?_, by simp [applyPartials], rfl, fun lid' _ => rfl⟩
    simp only [applyPartials, List.map_nil, List.sum_nil, Nat.add_zero]
    exact h
  | cons c cs ih =>
    have hstep : applyPartials lid st (c :: cs) =
        applyPartials lid ( add_partial st lid c.1 c.2.1 c.2.2) cs := rfl
    have h1 : get_farmer_record ( add_partial st lid c.1 c.2.1 c.2.2) lid =
        some { f with points := f.points + c.2.1 } := by
      rw [get_add_partial_same, h]
      rfl
    obtain ⟨ha, hb, hc, hd⟩ := ih ( add_partial st lid c.1 c.2.1 c.2.2) _ h1
    refine ⟨?_, ?_, ?_, ?_⟩
    · rw [hstep, ha]
      simp [Nat.add_assoc]
    · rw [hstep, hb]
      show (st.partials ++ [(⟨lid, c.1, c.2.1, c.2.2⟩ : PartialRow)]) ++ _ = _
      simp
    · rw [hstep, hc]
      exact rfl
    · intro lid' hne
      rw [hstep, hd lid' hne, get_add_partial_other st lid c.1 c.2.1 c.2.2 lid' hne]

theorem add_partial_points_accumulate_witness :
    get_farmer_record
      (applyPartials "a" ⟨[farmerC6old], [], []⟩ [(10, 5, "h"), (11, 7, "h")]) "a" =
      some { farmerC6old with points := farmerC6old.points + 12 } ∧
    (applyPartials "a" ⟨[farmerC6old], [], []⟩ [(10, 5, "h"), (11, 7, "h")]).partials =
      [⟨"a", 10, 5, "h"⟩, ⟨"a", 11, 7, "h"⟩] :=
  ⟨(add_partial_points_accumulate ⟨[farmerC6old], [], []⟩ "a"
      [(10, 5, "h"), (11, 7, "h")] farmerC6old (by decide)).1,
   (add_partial_points_accumulate ⟨[farmerC6old], [], []⟩ "a"
      [(10, 5, "h"), (11, 7, "h")] farmerC6old (by decide)).2.1⟩

/-! ### C9: get_points_by_date -/

/-- C9 counterexample.  With bucketCount = 1 and two partials of one
farmer in different minutes of the last day, get_points_by_date returns
two buckets: the claimed cap of bucketCount buckets is false, because the
LIMIT passed to the query is count * 60. -/
theorem points_by_date_counterexample :
    ¬ ((get_points_by_date stC9 1000000 "a" 1).length ≤ 1) := by decide

/-- C9 amended.  get_points_by_date returns only minute buckets of that
farmer's partials from the last 24 hours, with the difficulties summed
per bucket, and at most 60 * bucketCount buckets (not bucketCount). -/
theorem points_by_date_spec (st : PoolState) (now : Nat) (lid : String) (count : Nat) :
    (get_points_by_date st now lid count).length ≤ count * 60 ∧
    ∀ k s, (k, s) ∈ get_points_by_date st now lid count →
      (∃ r ∈ st.partials, r.launcher_id = lid ∧ inWindow now r.timestamp = true ∧
        r.timestamp / 60 = k) ∧
      s = ((st.partials.filter (fun r => r.timestamp / 60 == k &&
            (r.launcher_id == lid && inWindow now r.timestamp))).map
          (fun r => r.difficulty)).sum := by
  constructor
  · unfold get_points_by_date
    rw [List.length_take]
    exact inf_le_left
  · intro k s hmem
    unfold get_points_by_date at hmem
    have hmem' := List.mem_of_mem_take hmem
    rw [List.mem_map] at hmem'
    obtain ⟨k', hk', heq⟩ := hmem'
    have hk : k' = k := congrArg Prod.fst heq
    subst hk
    have hs : s = (((windowRows st now lid).filter
        (fun r => r.timestamp / 60 == k')).map (fun r => r.difficulty)).sum :=
      (congrArg Prod.snd heq).symm
    constructor
    · rw [List.mem_dedup, List.mem_map] at hk'
      obtain ⟨r, hr, hrk⟩ := hk'
      unfold windowRows at hr
      simp only [List.mem_filter, Bool.and_eq_true, beq_iff_eq] at hr
      obtain ⟨hr1, hr2, hr3⟩ := hr
      exact ⟨r, hr1, hr2, hr3, hrk⟩
    · rw [hs]
      unfold windowRows
      rw [List.filter_filter]

theorem points_by_date_spec_witness :
    (16666, 3) ∈ get_points_by_date stC9 1000000 "a" 1 ∧
    (3 : Nat) = ((stC9.partials.filter (fun r => r.timestamp / 60 == 16666 &&
        (r.launcher_id == "a" && inWindow 1000000 r.timestamp))).map
      (fun r => r.difficulty)).sum :=
  ⟨by decide, ((points_by_date_spec stC9 1000000 "a" 1).2 16666 3 (by decide)).2⟩

/-! ### Helper lemmas for the payout accumulation (C1) -/

theorem foldlMin_spec (l : List Nat) (j : Nat) :
    l.foldl min j ∈ j :: l ∧ ∀ x ∈ j :: l, l.foldl min j ≤ x := by
  induction l generalizing j with
  | nil =>
    constructor
    · exact List.mem_singleton.mpr rfl
    · intro x hx
      rw [List.mem_singleton] at hx
      exact hx ▸ Nat.le_refl j
  | cons a t ih =>
    obtain ⟨ihmem, ihle⟩ := ih (min j a)
    constructor
    · rw [List.foldl_cons]
      rcases List.mem_cons.mp ihmem with hm | hm
      · have hcase : min j a = j ∨ min j a = a := by omega
        rcases hcase with h' | h'
        · rw [hm, h']
          exact List.mem_cons_self _ _
        · rw [hm, h']
          exact List.mem_cons_of_mem _ (List.mem_cons_self _ _)
      · exact List.mem_cons_of_mem _ (List.mem_cons_of_mem _ hm)
    · intro x hx
      rw [List.foldl_cons]
      have hle0 : t.foldl min (min j a) ≤ min j a :=
        ihle _ (List.mem_cons_self _ _)
      rcases List.mem_cons.mp hx with hm | hm
      · subst hm
        omega
      · rcases List.mem_cons.mp hm with hm' | hm'
        · subst hm'
          omega
        · exact ihle x (List.mem_cons_of_mem _ hm')

theorem minTs_spec (l : List Nat) (m : Nat) (h : minTs l = some m) :
    m ∈ l ∧ ∀ x ∈ l, m ≤ x := by
  cases l with
  | nil => cases h
  | cons t ts =>
    have hm : ts.foldl min t = m := by
      injection h
    exact hm ▸ foldlMin_spec ts t

theorem foldl_min_flip (l : List Nat) (j : Nat) :
    l.foldl (fun a x => min x a) j = l.foldl min j := by
  induction l generalizing j with
  | nil => rfl
  | cons a t ih =>
    rw [List.foldl_cons, List.foldl_cons,
      show min a j = min j a by omega, ih]

theorem accStep_keys (acc : List (List Nat × Nat × Nat)) (c : Nat × List Nat × Nat) :
    (accStep acc c).map (fun e => e.1) =
      if acc.any (fun e => e.1 == c.2.1) then acc.map (fun e => e.1)
      else acc.map (fun e => e.1) ++ [c.2.1] := by
  unfold accStep
  split
  · rw [List.map_map]
    apply List.map_congr_left
    intro a _
    by_cases hx : (a.1 == c.2.1) = true <;> simp [Function.comp, hx]
  · rw [List.map_append]
    rfl

theorem accStep_keys_nodup (acc : List (List Nat × Nat × Nat)) (c : Nat × List Nat × Nat)
    (h : (acc.map (fun e => e.1)).Nodup) : ((accStep acc c).map (fun e => e.1)).Nodup := by
  rw [accStep_keys]
  split
  · exact h
  · rename_i hany
    rw [List.nodup_append]
    refine ⟨h, List.nodup_singleton _, ?_⟩
    intro k hk hk'
    rw [List.mem_singleton] at hk'
    rw [List.mem_map] at hk
    obtain ⟨e, he, hek⟩ := hk
    have hfalse : ¬ (e.1 == c.2.1) = true := by
      have hany' : acc.any (fun e => e.1 == c.2.1) = false := by
        cases hb : acc.any (fun e => e.1 == c.2.1) with
        | false => rfl
        | true => exact absurd hb hany
      exact List.any_eq_false.mp hany' e he
    apply hfalse
    rw [hek, hk']
    exact beq_self_eq_true _

theorem any_of_find?_eq_some {α : Type} {p : α → Bool} {l : List α} {a : α}
    (h : l.find? p = some a) : l.any p = true :=
  List.any_eq_true.mpr ⟨a, List.mem_of_find?_eq_some h, List.find?_some h⟩

theorem any_of_find?_eq_none {α : Type} {p : α → Bool} {l : List α}
    (h : l.find? p = none) : l.any p = false :=
  List.any_eq_false.mpr (List.find?_eq_none.mp h)

theorem accStep_find_same (acc : List (List Nat × Nat × Nat)) (c : Nat × List Nat × Nat) :
    (accStep acc c).find? (fun e => e.1 == c.2.1) =
      some (match acc.find? (fun e => e.1 == c.2.1) with
        | some e => (e.1, e.2.1 + c.1, min c.2.2 e.2.2)
        | none => (c.2.1, c.1, c.2.2)) := by
  cases hfind : acc.find? (fun e => e.1 == c.2.1) with
  | some e =>
    have hany := any_of_find?_eq_some hfind
    have hkey' : e.1 = c.2.1 := by simpa using List.find?_some hfind
    unfold accStep
    rw [if_pos hany]
    rw [find?_map_pred _ _ _ (fun x => by
      by_cases hx : (x.1 == c.2.1) = true <;> simp [hx])]
    rw [hfind, Option.map_some']
    simp [hkey']
  | none =>
    have hany := any_of_find?_eq_none hfind
    unfold accStep
    rw [if_neg (by simp [hany])]
    rw [List.find?_append, hfind]
    simp [List.find?]

theorem accStep_find_other (acc : List (List Nat × Nat × Nat)) (c : Nat × List Nat × Nat)
    (ph : List Nat) (hne : ¬ (c.2.1 == ph) = true) :
    (accStep acc c).find? (fun e => e.1 == ph) = acc.find? (fun e => e.1 == ph) := by
  have hnee : c.2.1 ≠ ph := by simpa using hne
  unfold accStep
  split
  · rw [find?_map_pred _ _ _ (fun x => by
      by_cases hx : (x.1 == c.2.1) = true <;> simp [hx])]
    cases hfind : acc.find? (fun e => e.1 == ph) with
    | none => rfl
    | some e =>
      have hkey : e.1 = ph := by simpa using List.find?_some hfind
      have hb : (e.1 == c.2.1) = false := by
        rw [beq_eq_false_iff_ne, hkey]
        exact fun h => hnee h.symm
      simp [hb]
      intro h
      exact absurd h (by simpa using hb)
  · rw [List.find?_append]
    have hsingle : List.find? (fun e => e.1 == ph) [(c.2.1, c.1, c.2.2)] = none := by
      simp [List.find?_cons, hnee]
    rw [hsingle, Option.or_none]

theorem foldl_accStep_find (rows : List (Nat × List Nat × Nat))
    (acc : List (List Nat × Nat × Nat)) (ph : List Nat) :
    (rows.foldl accStep acc).find? (fun e => e.1 == ph) =
      payoutAgg ph (acc.find? (fun e => e.1 == ph))
        (rows.filter (fun r => r.2.1 == ph)) := by
  induction rows generalizing acc with
  | nil =>
    show acc.find? (fun e => e.1 == ph) =
      payoutAgg ph (acc.find? (fun e => e.1 == ph)) []
    cases hfind : acc.find? (fun e => e.1 == ph) with
    | none => rfl
    | some e => simp [payoutAgg]
  | cons r rest ih =>
    rw [List.foldl_cons, ih]
    by_cases hkey : (r.2.1 == ph) = true
    · have hph : r.2.1 = ph := by simpa using hkey
      rw [List.filter_cons, if_pos hkey]
      subst hph
      rw [accStep_find_same]
      cases hfind : acc.find? (fun e => e.1 == r.2.1) with
      | some e => simp [payoutAgg, Nat.add_assoc]
      | none => simp [payoutAgg, Nat.add_assoc]
    · rw [List.filter_cons, if_neg hkey, accStep_find_other acc r ph hkey]

theorem foldl_accStep_keys_nodup (rows : List (Nat × List Nat × Nat))
    (acc : List (List Nat × Nat × Nat)) (h : (acc.map (fun e => e.1)).Nodup) :
    ((rows.foldl accStep acc).map (fun e => e.1)).Nodup := by
  induction rows generalizing acc with
  | nil => exact h
  | cons r rest ih => exact ih _ (accStep_keys_nodup acc r h)

theorem accumulateRows_eq (rows : List (Nat × String × Option Nat × Nat))
    (acc : List (List Nat × Nat × Nat)) :
    accumulateRows rows acc = (convAll rows).map (fun conv => conv.foldl accStep acc) := by
  induction rows generalizing acc with
  | nil => rfl
  | cons row rest ih =>
    cases hc : convRow row with
    | none =>
      cases hca : convAll rest with
      | none => simp [accumulateRows, convAll, hc, hca]
      | some cs => simp [accumulateRows, convAll, hc, hca]
    | some c =>
      cases hca : convAll rest with
      | none => simp [accumulateRows, convAll, hc, hca, ih]
      | some cs => simp [accumulateRows, convAll, hc, hca, ih]

theorem convAll_payout (st : PoolState) (now : Nat) (fs : List FarmerRecord)
    (conv : List (Nat × List Nat × Nat)) (ph : List Nat)
    (h : convAll (fs.map (fun f => (f.points, f.payout_instructions,
        joinOf st f.launcher_id, points24 st now f.launcher_id))) = some conv) :
    (conv.filter (fun c => c.2.1 == ph)).map (fun c => c.1) =
      (fs.filter (fun f => bytes32FromHex f.payout_instructions == some ph)).map
        (fun f => points24 st now f.launcher_id) ∧
    (conv.filter (fun c => c.2.1 == ph)).map (fun c => c.2.2) =
      (fs.filter (fun f => bytes32FromHex f.payout_instructions == some ph)).filterMap
        (fun f => joinOf st f.launcher_id) := by
  induction fs generalizing conv with
  | nil =>
    simp only [List.map_nil, convAll] at h
    injection h with h'
    subst h'
    simp
  | cons f fs' ih =>
    rw [List.map_cons] at h
    cases hc : convRow (f.points, f.payout_instructions,
        joinOf st f.launcher_id, points24 st now f.launcher_id) with
    | none => simp [convAll, hc] at h
    | some c =>
      cases hca : convAll (fs'.map (fun f => (f.points, f.payout_instructions,
          joinOf st f.launcher_id, points24 st now f.launcher_id))) with
      | none => simp [convAll, hc, hca] at h
      | some cs =>
        simp only [convAll, hc, hca] at h
        injection h with h'
        subst h'
        obtain ⟨ih1, ih2⟩ := ih cs hca
        simp only [convRow] at hc
        cases hjd : joinOf st f.launcher_id with
        | none => rw [hjd] at hc; simp at hc
        | some jd =>
          cases hdec : bytes32FromHex f.payout_instructions with
          | none => rw [hjd, hdec] at hc; simp at hc
          | some phf =>
            rw [hjd, hdec] at hc
            injection hc with hc'
            subst hc'
            by_cases hphf : phf = ph
            · subst hphf
              rw [List.filter_cons, if_pos (by simp),
                  List.filter_cons, if_pos (by simp [hdec])]
              constructor
              · rw [List.map_cons, List.map_cons, ih1]
              · rw [List.map_cons, List.filterMap_cons, hjd]
                simp [ih2]
            · rw [List.filter_cons, if_neg (by simp [hphf]),
                  List.filter_cons, if_neg (by simp [hdec, hphf])]
              exact ⟨ih1, ih2⟩

theorem countP_beq_of_nodup {α β : Type} [BEq β] [LawfulBEq β] [DecidableEq β]
    (l : List α) (k : α → β) (ph : β) (h : (l.map k).Nodup) :
    l.countP (fun e => k e == ph) = if ph ∈ l.map k then 1 else 0 := by
  induction l with
  | nil => simp
  | cons a t ih =>
    rw [List.map_cons] at h
    have hnd := List.nodup_cons.mp h
    rw [List.countP_cons, ih hnd.2, List.map_cons]
    by_cases hka : k a = ph
    · subst hka
      have hnotin : ¬ k a ∈ t.map k := hnd.1
      rw [if_neg hnotin, if_pos (List.mem_cons_self _ _), if_pos (by simp)]
    · have hpa : ¬ ((k a == ph) = true) := by simp [hka]
      rw [if_neg hpa]
      by_cases hmem : ph ∈ t.map k
      · rw [if_pos hmem, if_pos (List.mem_cons_of_mem _ hmem)]
      · rw [if_neg hmem, if_neg (fun h' => by
          rcases List.mem_cons.mp h' with h1 | h2
          · exact hka h1.symm
          · exact hmem h2)]

/-! ### C1: payout shares merged by destination -/

/-- C1 amended.  Whenever the payout aggregation returns a list, that list
has exactly one entry per 32-byte destination that some eligible farmer
(pool member with points > 0) decodes to, and no entry otherwise; the
entry's total is the sum of the merged farmers' last-24h windowed
difficulty sums (points24 — not their points accumulators), and its join
date is the minimum of the merged farmers' earliest partial timestamps. -/
theorem payout_shares_merged_by_destination (st : PoolState) (now : Nat)
    (L : List (Nat × List Nat × Nat)) (ph : List Nat)
    (hL : get_farmer_points_and_payout_instructions st now = some L) :
    (destFarmers st ph = [] → L.countP (fun e => e.2.1 == ph) = 0) ∧
    (destFarmers st ph ≠ [] →
      L.countP (fun e => e.2.1 == ph) = 1 ∧
      ∀ e ∈ L, e.2.1 = ph →
        e.1 = ((destFarmers st ph).map (fun f => points24 st now f.launcher_id)).sum ∧
        e.2.2 ∈ destJoins st ph ∧
        ∀ j ∈ destJoins st ph, e.2.2 ≤ j) := by
  unfold get_farmer_points_and_payout_instructions at hL
  rw [accumulateRows_eq] at hL
  cases hconv : convAll (sqlPayoutRows st now) with
  | none =>
    rw [hconv] at hL
    simp at hL
  | some conv =>
    rw [hconv] at hL
    simp only [Option.map_some'] at hL
    injection hL with hL'
    obtain ⟨hpts, hjds⟩ := convAll_payout st now (eligibleFarmers st) conv ph hconv
    have hfind' : (conv.foldl accStep []).find? (fun e => e.1 == ph) =
        payoutAgg ph none (conv.filter (fun r => r.2.1 == ph)) :=
      foldl_accStep_find conv [] ph
    have hnd : ((conv.foldl accStep []).map (fun e => e.1)).Nodup :=
      foldl_accStep_keys_nodup conv [] (by simp)
    have hcount : L.countP (fun e => e.2.1 == ph) =
        (conv.foldl accStep []).countP (fun e => e.1 == ph) := by
      rw [← hL', List.countP_map]
      rfl
    constructor
    · intro hdest
      have hd' : (eligibleFarmers st).filter
          (fun f => bytes32FromHex f.payout_instructions == some ph) = [] := hdest
      have hfil : conv.filter (fun c => c.2.1 == ph) = [] := by
        have h0 : (conv.filter (fun c => c.2.1 == ph)).map (fun c => c.1) = [] := by
          rw [hpts, hd']
          rfl
        exact List.map_eq_nil_iff.mp h0
      rw [hfil] at hfind'
      rw [hcount, List.countP_eq_zero]
      intro a ha hpa
      exact (List.find?_eq_none.mp hfind' a ha) hpa
    · intro hdest
      have hd' : (eligibleFarmers st).filter
          (fun f => bytes32FromHex f.payout_instructions == some ph) ≠ [] := hdest
      obtain ⟨c0, rs0, hfil⟩ : ∃ c0 rs0, conv.filter (fun c => c.2.1 == ph) = c0 :: rs0 := by
        cases hf : conv.filter (fun c => c.2.1 == ph) with
        | nil =>
          exfalso
          apply hd'
          have h0 := hpts
          rw [hf] at h0
          exact List.map_eq_nil_iff.mp h0.symm
        | cons a b => exact ⟨a, b, rfl⟩
      rw [hfil] at hfind'
      have hfindE : (conv.foldl accStep []).find? (fun e => e.1 == ph) =
          some (ph, c0.1 + (rs0.map (fun r => r.1)).sum,
            (rs0.map (fun r => r.2.2)).foldl (fun a x => min x a) c0.2.2) := hfind'
      have hEmem := List.mem_of_find?_eq_some hfindE
      have hjoins : destJoins st ph = (c0 :: rs0).map (fun c => c.2.2) := by
        unfold destJoins destFarmers
        rw [← hjds, hfil]
      constructor
      · rw [hcount, countP_beq_of_nodup _ _ _ hnd]
        rw [if_pos (List.mem_map.mpr ⟨_, hEmem, rfl⟩)]
      · intro e heL hekey
        rw [← hL', List.mem_map] at heL
        obtain ⟨a, ha, hae⟩ := heL
        have hakey : a.1 = ph := by
          have h2 : e.2.1 = a.1 := by rw [← hae]
          rw [← h2, hekey]
        have haEt : a = (ph, c0.1 + (rs0.map (fun r => r.1)).sum,
            (rs0.map (fun r => r.2.2)).foldl (fun a x => min x a) c0.2.2) :=
          List.inj_on_of_nodup_map hnd ha hEmem (by rw [hakey])
        have he1 : e.1 = a.2.1 := by rw [← hae]
        have he3 : e.2.2 = a.2.2 := by rw [← hae]
        refine ⟨?_, ?_, ?_⟩
        · rw [he1, haEt]
          have hsum : ((destFarmers st ph).map
              (fun f => points24 st now f.launcher_id)).sum
              = ((c0 :: rs0).map (fun c => c.1)).sum := by
            unfold destFarmers
            rw [← hpts, hfil]
          rw [hsum, List.map_cons, List.sum_cons]
        · rw [he3, haEt, hjoins, List.map_cons]
          show (rs0.map (fun r => r.2.2)).foldl (fun a x => min x a) c0.2.2 ∈ _
          rw [foldl_min_flip]
          exact (foldlMin_spec (rs0.map (fun r => r.2.2)) c0.2.2).1
        · intro j hj
          rw [hjoins, List.map_cons] at hj
          rw [he3, haEt]
          show (rs0.map (fun r => r.2.2)).foldl (fun a x => min x a) c0.2.2 ≤ j
          rw [foldl_min_flip]
          exact (foldlMin_spec (rs0.map (fun r => r.2.2)) c0.2.2).2 j hj

/-- C1 counterexample.  In stPayOld both merged farmers are pool members
with points 40 and 25 and identical payoutInstructions, yet the single
entry for their destination carries total 0, not 40 + 25 = 65: the loop
sums row[3], the 24h-windowed difficulty sum, and both partials are older
than a day.  The join-date merge (min 100) works as claimed. -/
theorem payout_shares_counterexample :
    farmerPayA.points = 40 ∧ farmerPayB.points = 25 ∧
    farmerPayA.is_pool_member = true ∧ farmerPayB.is_pool_member = true ∧
    farmerPayA.payout_instructions = farmerPayB.payout_instructions ∧
    get_farmer_points_and_payout_instructions stPayOld 1000000 =
      some [(0, phZeros, 100)] ∧
    ([(0, phZeros, 100)] : List (Nat × List Nat × Nat)).countP
      (fun e => e.1 == 40 + 25) = 0 := by decide

theorem payout_shares_merged_by_destination_witness :
    ([(65, phZeros, 999000)] : List (Nat × List Nat × Nat)).countP
        (fun e => e.2.1 == phZeros) = 1 :=
  ((payout_shares_merged_by_destination stPayNew 1000000
      [(65, phZeros, 999000)] phZeros (by decide)).2 (by decide)).1

/-! ### Helper lemmas for the all-farmers summary (C4) -/

theorem dedup_filter_comm {α : Type} [DecidableEq α] (p : α → Bool) (l : List α) :
    (l.filter p).dedup = (l.dedup).filter p := by
  induction l with
  | nil => rfl
  | cons a t ih =>
    by_cases hp : p a = true
    · rw [List.filter_cons, if_pos hp]
      by_cases ha : a ∈ t
      · rw [List.dedup_cons_of_mem (by rw [List.mem_filter]; exact ⟨ha, hp⟩),
          List.dedup_cons_of_mem ha, ih]
      · rw [List.dedup_cons_of_not_mem (fun hmem => ha (List.mem_filter.mp hmem).1),
          List.dedup_cons_of_not_mem ha, List.filter_cons, if_pos hp, ih]
    · rw [List.filter_cons, if_neg hp]
      by_cases ha : a ∈ t
      · rw [List.dedup_cons_of_mem ha, ih]
      · rw [List.dedup_cons_of_not_mem ha, List.filter_cons, if_neg hp, ih]

theorem sum_if_map {α : Type} (l : List α) (p : α → Bool) (f : α → Nat) :
    (l.map (fun r => if p r then f r else 0)).sum = ((l.filter p).map f).sum := by
  induction l with
  | nil => rfl
  | cons a t ih =>
    rw [List.map_cons, List.sum_cons, ih, List.filter_cons]
    by_cases hp : p a = true
    · rw [if_pos hp, if_pos hp, List.map_cons, List.sum_cons]
    · rw [if_neg hp, if_neg hp, Nat.zero_add]

theorem sum_ones {α : Type} (l : List α) : (l.map (fun _ => (1 : Nat))).sum = l.length := by
  induction l with
  | nil => rfl
  | cons a t ih =>
    simp [ih]
    omega

theorem sum_indicator {α : Type} (l : List α) (p : α → Bool) :
    (l.map (fun r => if p r then 1 else 0)).sum = (l.filter p).length := by
  rw [sum_if_map, sum_ones]

theorem tagValid_injective : Function.Injective tagValid := by
  intro a b hab
  cases a
  cases b
  simp only [tagValid, TaggedRow.mk.injEq] at hab
  obtain ⟨h1, h2, h3, h4, _⟩ := hab
  subst h1; subst h2; subst h3; subst h4
  rfl

theorem tagged_disjoint (st : PoolState) :
    (st.partials.map tagValid).Disjoint (st.invalid_partials.map tagInvalid) := by
  intro a ha hb
  rw [List.mem_map] at ha hb
  obtain ⟨r, _, hra⟩ := ha
  obtain ⟨s, _, hsa⟩ := hb
  have : a.source = 'p' := by rw [← hra]; rfl
  have h2 : a.source = 'i' := by rw [← hsa]; rfl
  rw [this] at h2
  cases h2

/-- The union ledger splits into the two deduplicated tagged ledgers:
the source tag keeps them disjoint. -/
theorem unionLedger_eq (st : PoolState) :
    unionLedger st = (st.partials.map tagValid).dedup ++
      (st.invalid_partials.map tagInvalid).dedup :=
  List.Disjoint.dedup_append (tagged_disjoint st)

theorem summaries_char (st : PoolState) (now : Nat) (fs : List FarmerRecord)
    (L : List FarmerSummary) (h : summaries st now fs = some L) :
    L.map (fun e => e.launcher_id) = fs.map (fun f => f.launcher_id) ∧
    ∀ e ∈ L, ∃ f ∈ fs, mkSummary st now f = some e := by
  induction fs generalizing L with
  | nil =>
    simp only [summaries] at h
    injection h with h'
    subst h'
    exact ⟨rfl, by simp⟩
  | cons f fs' ih =>
    cases hmk : mkSummary st now f with
    | none => simp [summaries, hmk] at h
    | some e0 =>
      cases hs : summaries st now fs' with
      | none => simp [summaries, hmk, hs] at h
      | some L' =>
        simp only [summaries, hmk, hs] at h
        injection h with h'
        subst h'
        obtain ⟨ih1, ih2⟩ := ih L' hs
        constructor
        · rw [List.map_cons, List.map_cons, ih1]
          have he0 : e0.launcher_id = f.launcher_id := by
            unfold mkSummary at hmk
            cases hdec : bytesFromHex f.payout_instructions with
            | none => rw [hdec] at hmk; simp at hmk
            | some addr =>
              cases hmin : minTs ((groupRows st f.launcher_id).map (fun r => r.timestamp)) with
              | none => rw [hdec, hmin] at hmk; simp at hmk
              | some jd =>
                rw [hdec, hmin] at hmk
                injection hmk with hmk'
                rw [← hmk']
          rw [he0]
        · intro e he
          rcases List.mem_cons.mp he with he' | he'
          · exact ⟨f, List.mem_cons_self _ _, he' ▸ hmk⟩
          · obtain ⟨g, hg, hge⟩ := ih2 e he'
            exact ⟨g, List.mem_cons_of_mem _ hg, hge⟩

theorem mkSummary_fields (st : PoolState) (now : Nat) (f : FarmerRecord)
    (e : FarmerSummary) (h : mkSummary st now f = some e) :
    e.launcher_id = f.launcher_id ∧
    e.partials24 = ((groupRows st f.launcher_id).map
      (fun r => if inWindow now r.timestamp && r.source == 'p' then 1 else 0)).sum ∧
    e.points24 = ((groupRows st f.launcher_id).map
      (fun r => if inWindow now r.timestamp && r.source == 'p' then r.difficulty else 0)).sum ∧
    e.invalid_partials24 = ((groupRows st f.launcher_id).map
      (fun r => if inWindow now r.timestamp && r.source == 'i' then 1 else 0)).sum ∧
    minTs ((groupRows st f.launcher_id).map (fun r => r.timestamp)) = some e.joinDate := by
  unfold mkSummary at h
  cases hdec : bytesFromHex f.payout_instructions with
  | none => rw [hdec] at h; simp at h
  | some addr =>
    cases hmin : minTs ((groupRows st f.launcher_id).map (fun r => r.timestamp)) with
    | none => rw [hdec, hmin] at h; simp at h
    | some jd =>
      rw [hdec, hmin] at h
      injection h with h'
      subst h'
      exact ⟨rfl, rfl, rfl, rfl, rfl⟩

theorem group_valid_filter (st : PoolState) (now : Nat) (lid : String) :
    (groupRows st lid).filter (fun r => inWindow now r.timestamp && r.source == 'p') =
      ((st.partials.filter
        (fun r => inWindow now r.timestamp && r.launcher_id == lid)).dedup).map tagValid := by
  unfold groupRows unionLedger
  rw [List.filter_filter, ← dedup_filter_comm, List.filter_append]
  have hB : (st.invalid_partials.map tagInvalid).filter
      (fun a => (inWindow now a.timestamp && a.source == 'p') && a.launcher_id == lid) = [] := by
    rw [List.filter_eq_nil_iff]
    intro b hb
    rw [List.mem_map] at hb
    obtain ⟨s, _, hsb⟩ := hb
    subst hsb
    simp [tagInvalid]
  rw [hB, List.append_nil, List.filter_map,
    List.dedup_map_of_injective tagValid_injective]
  have hcong : st.partials.filter
      ((fun a => (inWindow now a.timestamp && a.source == 'p') && a.launcher_id == lid) ∘ tagValid)
      = st.partials.filter (fun r => inWindow now r.timestamp && r.launcher_id == lid) := by
    apply List.filter_congr
    intro r _
    simp [tagValid, Function.comp]
  rw [hcong]

theorem group_invalid_filter (st : PoolState) (now : Nat) (lid : String) :
    (groupRows st lid).filter (fun r => inWindow now r.timestamp && r.source == 'i') =
      ((st.invalid_partials.map tagInvalid).filter
        (fun r => inWindow now r.timestamp && r.launcher_id == lid)).dedup := by
  unfold groupRows unionLedger
  rw [List.filter_filter, ← dedup_filter_comm, List.filter_append]
  have hA : (st.partials.map tagValid).filter
      (fun a => (inWindow now a.timestamp && a.source == 'i') && a.launcher_id == lid) = [] := by
    rw [List.filter_eq_nil_iff]
    intro b hb
    rw [List.mem_map] at hb
    obtain ⟨s, _, hsb⟩ := hb
    subst hsb
    simp [tagValid]
  rw [hA, List.nil_append]
  congr 1
  apply List.filter_congr
  intro r hr
  rw [List.mem_map] at hr
  obtain ⟨s, _, hsr⟩ := hr
  subst hsr
  simp [tagInvalid]

theorem partials24_raw (st : PoolState) (now : Nat) (lid : String) :
    ((groupRows st lid).map
      (fun r => if inWindow now r.timestamp && r.source == 'p' then 1 else 0)).sum
      = ((st.partials.filter
        (fun r => inWindow now r.timestamp && r.launcher_id == lid)).dedup).length := by
  rw [sum_indicator, group_valid_filter, List.length_map]

theorem points24_raw (st : PoolState) (now : Nat) (lid : String) :
    ((groupRows st lid).map
      (fun r => if inWindow now r.timestamp && r.source == 'p' then r.difficulty else 0)).sum
      = (((st.partials.filter
        (fun r => inWindow now r.timestamp && r.launcher_id == lid)).dedup).map
          (fun r => r.difficulty)).sum := by
  rw [sum_if_map, group_valid_filter, List.map_map]
  rfl

theorem invalid24_raw (st : PoolState) (now : Nat) (lid : String) :
    ((groupRows st lid).map
      (fun r => if inWindow now r.timestamp && r.source == 'i' then 1 else 0)).sum
      = (((st.invalid_partials.map tagInvalid).filter
        (fun r => inWindow now r.timestamp && r.launcher_id == lid)).dedup).length := by
  rw [sum_indicator, group_invalid_filter]

theorem mem_group_timestamps (st : PoolState) (lid : String) (t : Nat) :
    t ∈ (groupRows st lid).map (fun r => r.timestamp) ↔
      t ∈ ledgerTimestamps st lid := by
  unfold groupRows unionLedger ledgerTimestamps
  simp only [List.mem_map, List.mem_filter, List.mem_dedup, List.mem_append]
  constructor
  · rintro ⟨r, ⟨hr | hr, hlid⟩, ht⟩
    · left
      obtain ⟨s, hs, hsr⟩ := hr
      subst hsr
      exact ⟨s, ⟨hs, hlid⟩, ht⟩
    · right
      obtain ⟨s, hs, hsr⟩ := hr
      subst hsr
      exact ⟨s, ⟨hs, hlid⟩, ht⟩
  · rintro (⟨s, ⟨hs, hlid⟩, ht⟩ | ⟨s, ⟨hs, hlid⟩, ht⟩)
    · exact ⟨tagValid s, ⟨Or.inl ⟨s, hs, rfl⟩, hlid⟩, ht⟩
    · exact ⟨tagInvalid s, ⟨Or.inr ⟨s, hs, rfl⟩, hlid⟩, ht⟩

theorem groupRows_nonempty_iff (st : PoolState) (lid : String) :
    (∃ r ∈ unionLedger st, r.launcher_id = lid) ↔
      (!(groupRows st lid).isEmpty) = true := by
  unfold groupRows
  simp only [Bool.not_eq_true', List.isEmpty_eq_false, ne_eq, List.filter_eq_nil_iff]
  push_neg
  constructor
  · rintro ⟨r, hr, hlid⟩
    exact ⟨r, hr, by simp [hlid]⟩
  · rintro ⟨r, hr, hlid⟩
    exact ⟨r, hr, by simpa using hlid⟩

/-! ### C4: the all-farmers summary -/

/-- C4 amended.  Whenever get_farmer_record_for_all_farmers returns a
list, it has exactly one entry for every pool member that has at least
one row in the union of the two ledgers, entries only for such farmers
(the JOIN is inner, so members with no ledger rows are absent), and in
each entry partials24/points24/invalid_partials24 are computed over the
distinct ledger rows of the trailing 24-hour window and joinDate is the
earliest timestamp among that farmer's valid and invalid ledger rows. -/
theorem all_farmers_summary_characterization (st : PoolState) (now : Nat)
    (L : List FarmerSummary)
    (hnd : (st.farmers.map (fun f => f.launcher_id)).Nodup)
    (hL : get_farmer_record_for_all_farmers st now = some L) :
    (∀ f ∈ st.farmers, f.is_pool_member = true →
      (∃ r ∈ unionLedger st, r.launcher_id = f.launcher_id) →
      L.countP (fun e => e.launcher_id == f.launcher_id) = 1) ∧
    (∀ e ∈ L, ∃ f ∈ st.farmers, f.is_pool_member = true ∧
      e.launcher_id = f.launcher_id ∧
      ∃ r ∈ unionLedger st, r.launcher_id = f.launcher_id) ∧
    (∀ e ∈ L,
      e.partials24 = ((st.partials.filter (fun r =>
        inWindow now r.timestamp && r.launcher_id == e.launcher_id)).dedup).length ∧
      e.points24 = (((st.partials.filter (fun r =>
        inWindow now r.timestamp && r.launcher_id == e.launcher_id)).dedup).map
          (fun r => r.difficulty)).sum ∧
      e.invalid_partials24 = (((st.invalid_partials.map tagInvalid).filter (fun r =>
        inWindow now r.timestamp && r.launcher_id == e.launcher_id)).dedup).length ∧
      e.joinDate ∈ ledgerTimestamps st e.launcher_id ∧
      ∀ t ∈ ledgerTimestamps st e.launcher_id, e.joinDate ≤ t) := by
  unfold get_farmer_record_for_all_farmers at hL
  obtain ⟨hmap, hmem⟩ := summaries_char st now (summaryFarmers st) L hL
  refine ⟨?_, ?_, ?_⟩
  · intro f hf hmember hrows
    have hfs : f ∈ summaryFarmers st := by
      unfold summaryFarmers
      rw [List.mem_filter]
      refine ⟨?_, (groupRows_nonempty_iff st f.launcher_id).mp hrows⟩
      rw [List.mem_filter]
      exact ⟨hf, hmember⟩
    have h1 : L.countP (fun e => e.launcher_id == f.launcher_id)
        = (L.map (fun e => e.launcher_id)).countP (fun x => x == f.launcher_id) := by
      rw [List.countP_map]
      rfl
    rw [h1, hmap]
    have hsub : List.Sublist (summaryFarmers st) st.farmers :=
      (List.filter_sublist _).trans (List.filter_sublist _)
    have hnd' : ((summaryFarmers st).map (fun f => f.launcher_id)).Nodup :=
      List.Nodup.sublist (hsub.map (fun f => f.launcher_id)) hnd
    have hmemf : f.launcher_id ∈ (summaryFarmers st).map (fun f => f.launcher_id) :=
      List.mem_map_of_mem _ hfs
    exact List.count_eq_one_of_mem hnd' hmemf
  · intro e he
    obtain ⟨f, hf, hmk⟩ := hmem e he
    unfold summaryFarmers at hf
    obtain ⟨hf2, hrows⟩ := List.mem_filter.mp hf
    obtain ⟨hfmem, hmember⟩ := List.mem_filter.mp hf2
    exact ⟨f, hfmem, hmember, (mkSummary_fields st now f e hmk).1,
      (groupRows_nonempty_iff st f.launcher_id).mpr hrows⟩
  · intro e he
    obtain ⟨f, hf, hmk⟩ := hmem e he
    obtain ⟨hlid, hp24, hpt24, hinv24, hjd⟩ := mkSummary_fields st now f e hmk
    refine ⟨?_, ?_, ?_, ?_, ?_⟩
    · rw [hlid, hp24, partials24_raw]
    · rw [hlid, hpt24, points24_raw]
    · rw [hlid, hinv24, invalid24_raw]
    · rw [hlid]
      exact (mem_group_timestamps st f.launcher_id e.joinDate).mp (minTs_spec _ _ hjd).1
    · intro t ht
      rw [hlid] at ht
      exact (minTs_spec _ _ hjd).2 t ((mem_group_timestamps st f.launcher_id t).mpr ht)

/-- C4 counterexample.  A farmer with isPoolMember = true and no ledger
rows gets no summary entry: the query's JOIN with the union of the two
ledgers is an inner join, so the returned list is empty. -/
theorem all_farmers_summary_counterexample :
    farmerC4.is_pool_member = true ∧ stC4.farmers = [farmerC4] ∧
    get_farmer_record_for_all_farmers stC4 1000 = some [] := by decide

theorem all_farmers_summary_characterization_witness :
    ([⟨1, 40, "a", 1, 40, phZeros, 998000, "pa", 2, 1⟩] : List FarmerSummary).countP
      (fun e => e.launcher_id == farmerPayA.launcher_id) = 1 :=
  (all_farmers_summary_characterization stC4w 1000000
      [⟨1, 40, "a", 1, 40, phZeros, 998000, "pa", 2, 1⟩]
      (by decide) (by decide)).1 farmerPayA (by decide) (by decide)
    (by decide)
